import Mathlib

/-!
Verification of `src/bin/topology_1D.py` against its natural-language
specification.  The Python source is shallowly embedded: each parser and the
helix segmenter become executable Lean functions over lists; Python exceptions
become `Except` error values; Python `dict`s with consecutive integer keys
`0..n` become lists indexed by position.
-/

namespace Topology1D

/-- A Python runtime value restricted to the two types that ever meet in a
`==` comparison inside `read_bpseq`: `int` and `str`.  Python `==` between an
`int` and a `str` is `False`, which is exactly constructor inequality here. -/
inductive PyVal where
  | pyInt : Int → PyVal
  | pyStr : String → PyVal
deriving DecidableEq, Repr

/-- Python `==` on `PyVal`: equal ints compare as ints, equal strs as strs,
and a mixed comparison is always `false` (Python semantics). -/
def pyEqB : PyVal → PyVal → Bool
  | .pyInt a, .pyInt b => a == b
  | .pyStr a, .pyStr b => a == b
  | _, _ => false

/-- Numeric value of a decimal digit character. -/
def digitVal (c : Char) : Nat := c.toNat - 48

/-- Value of a non-empty all-digit character list, `none` otherwise. -/
def decDigits : List Char → Option Nat
  | [] => none
  | l =>
    if l.all Char.isDigit then some (l.foldl (fun n c => 10 * n + digitVal c) 0)
    else none

/-- Model of Python `int(str)`: optional sign followed by decimal digits.
`none` models `ValueError`.  (Python also accepts surrounding whitespace and
underscores; the inputs of this program never use them.) -/
def pyIntL : List Char → Option Int
  | '-' :: rest => (decDigits rest).map (fun n => -(n : Int))
  | '+' :: rest => (decDigits rest).map (fun n => (n : Int))
  | l => (decDigits l).map (fun n => (n : Int))

/-- Python `int()` on a `String` token. -/
def pyInt (s : String) : Option Int := pyIntL s.data

/-- Model of Python `str.split(sep)` for a one-character separator: splits at
every occurrence, keeping empty fragments (`"".split` gives `[""]`). -/
def splitOnChar (sep : Char) : List Char → List (List Char)
  | [] => [[]]
  | c :: rest =>
    match splitOnChar sep rest with
    | [] => [[c]]
    | g :: gs => if c = sep then [] :: g :: gs else (c :: g) :: gs

/-- Model of `w.replace(',[000000]', '')`: removes every occurrence of the
nine-character marker token, scanning left to right without overlap. -/
def stripMarker : List Char → List Char
  | ',' :: '[' :: '0' :: '0' :: '0' :: '0' :: '0' :: '0' :: ']' :: rest =>
      stripMarker rest
  | c :: rest => c :: stripMarker rest
  | [] => []

/-- The two `IndexError`s `find_parens` can raise, with the offending index:
`noClosing i` is `"No matching closing parens at: i"` (a `)` seen with an
empty stack) and `noOpening i` is `"No matching opening parens at: i"`
(`pstack.pop()` after the scan, i.e. the most recently pushed leftover). -/
inductive ParensErr where
  | noClosing : Nat → ParensErr
  | noOpening : Nat → ParensErr
deriving DecidableEq, Repr

/-- The loop of `find_parens`: `i` is the enumeration index, `pstack` the
stack of opening indices (top first, Python `list.append`/`pop`), `toret`
the matched pairs in Python dict insertion order (each key inserted when its
closer is found). -/
def goFP : List String → Nat → List Nat → List (Nat × Nat) →
    Except ParensErr (List (Nat × Nat))
  | [], _, pstack, toret =>
    match pstack with
    | [] => .ok toret
    | top :: _ => .error (.noOpening top)
  | c :: rest, i, pstack, toret =>
    if c = "(" then goFP rest (i + 1) (i :: pstack) toret
    else if c = ")" then
      match pstack with
      | [] => .error (.noClosing i)
      | top :: ps => goFP rest (i + 1) ps (toret ++ [(top, i)])
    else goFP rest (i + 1) pstack toret

/-- `find_parens(s)` from the source.  `s` is the iterable handed to the
function: a list of strings (the pipe-delimited segments in `read_jv`, or the
one-character strings of a Python string payload). -/
def find_parens (s : List String) : Except ParensErr (List (Nat × Nat)) :=
  goFP s 0 [] []

/-- A Python string viewed as the list `find_parens` iterates over: its
characters as one-character strings. -/
def pyStrIter (s : String) : List String := s.data.map (fun c => String.mk [c])

/-- Reference scan (the spec's §4.1 stack description): push each opening
index, pop on each closer; result is the first underflowing closer's index
(error) or the final stack of still-open opening indices, most recent first. -/
def bracketStacksGo : List String → Nat → List Nat → Except Nat (List Nat)
  | [], _, st => .ok st
  | c :: rest, i, st =>
    if c = "(" then bracketStacksGo rest (i + 1) (i :: st)
    else if c = ")" then
      match st with
      | [] => .error i
      | _ :: ps => bracketStacksGo rest (i + 1) ps
    else bracketStacksGo rest (i + 1) st

/-- Occurrences of a token in a list of tokens. -/
def countTok (x : String) : List String → Nat
  | [] => 0
  | c :: rest => (if c = x then 1 else 0) + countTok x rest

/-- The exceptions the tabular parsers can raise: Python `IndexError` from a
missing field and `ValueError` from a failed `int()` conversion. -/
inductive PyErr where
  | indexError : PyErr
  | valueError : PyErr
deriving DecidableEq, Repr

/-- Python `(t0, t2) in acc` inside `read_bpseq`: `t0`, `t2` are the raw
string tokens of the row while `acc` holds `int` tuples, so each tuple
equality compares a `str` against an `int`. -/
def strPairMem (t0 t2 : String) (acc : List (Int × Int)) : Bool :=
  acc.any (fun p => pyEqB (.pyStr t0) (.pyInt p.1) && pyEqB (.pyStr t2) (.pyInt p.2))

/-- One iteration of the `read_bpseq` loop on a whitespace-split row.
`int(row.split()[0]) == 0 or int(row.split()[2]) == 0` short-circuits, so the
third token is only touched when the first is nonzero. -/
def bpStep (row : List String) (acc : List (Int × Int)) :
    Except PyErr (List (Int × Int)) :=
  match row.get? 0 with
  | none => .error .indexError
  | some t0 =>
    match pyInt t0 with
    | none => .error .valueError
    | some a =>
      if a = 0 then .ok acc
      else
        match row.get? 2 with
        | none => .error .indexError
        | some t2 =>
          match pyInt t2 with
          | none => .error .valueError
          | some b =>
            if b = 0 then .ok acc
            else if acc.length < 1 then .ok (acc ++ [(a, b)])
            else if strPairMem t0 t2 acc || strPairMem t2 t0 acc then .ok acc
            else .ok (acc ++ [(a, b)])

/-- The `read_bpseq` loop over all rows. -/
def bpGo : List (List String) → List (Int × Int) → Except PyErr (List (Int × Int))
  | [], acc => .ok acc
  | row :: rest, acc =>
    match bpStep row acc with
    | .error e => .error e
    | .ok acc' => bpGo rest acc'

/-- `read_bpseq(path)` from the source, over the whitespace-split rows of the
file. -/
def read_bpseq (rows : List (List String)) : Except PyErr (List (Int × Int)) :=
  bpGo rows []

/-- `base_pairs` from the source: the fixed canonical base-pair category
list. -/
def base_pairs : List (String × String) := [("A", "U"), ("G", "C"), ("G", "U")]

/-- The pair `(int(row[0].split(':')[1]), int(row[2].split(':')[1]))` that
`read_csv` builds from one data row, with Python's left-to-right evaluation
of the two fields. -/
def csvRowPair (row : List String) : Except PyErr (Int × Int) :=
  match row.get? 0 with
  | none => .error .indexError
  | some f0 =>
    match (splitOnChar ':' f0.data).get? 1 with
    | none => .error .indexError
    | some s0 =>
      match pyIntL s0 with
      | none => .error .valueError
      | some a =>
        match row.get? 2 with
        | none => .error .indexError
        | some f2 =>
          match (splitOnChar ':' f2.data).get? 1 with
          | none => .error .indexError
          | some s2 =>
            match pyIntL s2 with
            | none => .error .valueError
            | some b => .ok (a, b)

/-- The `read_csv` loop over the data rows: each row appends its pair once
per entry of `base_pairs`. -/
def read_csvGo : List (List String) → List (Int × Int) →
    Except PyErr (List (Int × Int))
  | [], acc => .ok acc
  | row :: rest, acc =>
    match csvRowPair row with
    | .error e => .error e
    | .ok p => read_csvGo rest (acc ++ base_pairs.map (fun _ => p))

/-- `read_csv(path)` from the source, over the tab-split rows of the file:
the first row only bumps `line_count` (header skip). -/
def read_csv : List (List String) → Except PyErr (List (Int × Int))
  | [] => .ok []
  | _hdr :: rows => read_csvGo rows []

/-- What one data row contributes to the `read_csv` output: three identical
copies of its pair (one per `base_pairs` entry), nothing on a parse error
(the error aborts the whole read). -/
def rowTriples (r : List String) : List (Int × Int) :=
  match csvRowPair r with
  | .ok p => [p, p, p]
  | .error _ => []

/-- The header prefix `read_jv` looks for:
`re.match('^NO_GRAPH\tSecondary structure', line)` is a plain prefix test. -/
def jvHeader : List Char := "NO_GRAPH\tSecondary structure".data

/-- Whether a line matches the annotation-header regex. -/
def jvMatches (line : String) : Bool := jvHeader.isPrefixOf line.data

/-- `[w.replace(',[000000]', '') for w in line.split('\t')[2].split('|')]`:
`none` models the `IndexError` when the matching line has fewer than three
tab-separated fields. -/
def jvPayload (line : String) : Option (List String) :=
  match (splitOnChar '\t' line.data).get? 2 with
  | none => none
  | some f => some ((splitOnChar '|' f).map (fun seg => String.mk (stripMarker seg)))

/-- The failures of `read_jv`: the `NameError` (`UnboundLocalError`) when no
line matched and `anno_resi` was never assigned, the `IndexError` from a
matching line with too few fields, and an error propagated from
`find_parens`. -/
inductive JvErr where
  | nameError : JvErr
  | indexError : JvErr
  | bracketErr : ParensErr → JvErr
deriving DecidableEq, Repr

/-- The `read_jv` line loop: every matching line overwrites `anno_resi`
(there is no `break`), non-matching lines leave it alone. -/
def jvGo : List String → Option (List String) → Except JvErr (Option (List String))
  | [], acc => .ok acc
  | line :: rest, acc =>
    if jvMatches line then
      match jvPayload line with
      | none => .error .indexError
      | some anno => jvGo rest (some anno)
    else jvGo rest acc

/-- `read_jv(path)` from the source, over the lines of the file. -/
def read_jv (lines : List String) : Except JvErr (List (Nat × Nat)) :=
  match jvGo lines none with
  | .error e => .error e
  | .ok none => .error .nameError
  | .ok (some anno) => (find_parens anno).mapError JvErr.bracketErr

/-- Python tuple order on int pairs: lexicographic. -/
def pairLe (p q : Int × Int) : Bool :=
  decide (p.1 < q.1 ∨ (p.1 = q.1 ∧ p.2 ≤ q.2))

/-- Insert a pair into a sorted list (insertion sort step). -/
def insertPair (p : Int × Int) : List (Int × Int) → List (Int × Int)
  | [] => [p]
  | q :: rest => if pairLe p q then p :: q :: rest else q :: insertPair p rest

/-- Sort a pair list by the lexicographic order (Python `sorted`). -/
def sortPairs : List (Int × Int) → List (Int × Int)
  | [] => []
  | p :: rest => insertPair p (sortPairs rest)

/-- Remove duplicate pairs, keeping one copy of each (Python `set`); the
retained occurrence is irrelevant because the result is sorted afterwards. -/
def dedupPairs : List (Int × Int) → List (Int × Int)
  | [] => []
  | p :: rest => if p ∈ rest then dedupPairs rest else p :: dedupPairs rest

/-- `sorted(list(set(cann_tups)))`: the Ordered Pair Sequence. -/
def ordered_basepairs (cann_tups : List (Int × Int)) : List (Int × Int) :=
  sortPairs (dedupPairs cann_tups)

/-- The adjacency test of `create_helices` between the previous ordered pair
and the current one: first coordinates or second coordinates differ by one. -/
def adjacentBp (prev q : Int × Int) : Bool :=
  q.1 - 1 == prev.1 || q.2 - 1 == prev.2

/-- The `create_helices` loop from the second pair on.  `done` holds the
closed helices (dict entries `0..n-1`), `cur` the list of the currently open
helix `n`.  In the non-adjacent branch the source only does `helix_num += 1`
and `helix_basepairs[helix_num] = []` — the current pair is never appended. -/
def chGo : List (Int × Int) → (Int × Int) → List (List (Int × Int)) →
    List (Int × Int) → Nat → List (List (Int × Int)) × Nat
  | [], _, done, cur, n => (done ++ [cur], n)
  | q :: rest, prev, done, cur, n =>
    if adjacentBp prev q then chGo rest q done (cur ++ [q]) n
    else chGo rest q (done ++ [cur]) [] (n + 1)

/-- `create_helices(cann_tups)` from the source.  The returned dict has the
consecutive integer keys `0..helix_num`, so it is embedded as the list of its
values in key order, paired with `helix_num`. -/
def create_helices (cann_tups : List (Int × Int)) :
    List (List (Int × Int)) × Nat :=
  match ordered_basepairs cann_tups with
  | [] => ([], 0)
  | p :: rest => chGo rest p [] [p] 0

/-- Decidable form of "the two positions extracted from this bpseq row are
distinct (when the row parses at all)". -/
def bpRowDistinct (r : List String) : Bool :=
  match r.get? 0, r.get? 2 with
  | some t0, some t2 =>
    match pyInt t0, pyInt t2 with
    | some a, some b => a != b
    | _, _ => true
  | _, _ => true

/-- Decidable form of "the two positions extracted from this contact-table
row are distinct (when the row parses at all)". -/
def csvRowDistinct (r : List String) : Bool :=
  match csvRowPair r with
  | .ok p => p.1 != p.2
  | .error _ => true

/-! ## Helper lemmas -/

/-- The helix count and key count of `chGo`: when the closed-helix list has
`n` entries, the result list has one entry more than the final helix index. -/
lemma chGo_len (t : List (Int × Int)) : ∀ (prev : Int × Int)
    (done : List (List (Int × Int))) (cur : List (Int × Int)) (n : Nat),
    done.length = n →
    (chGo t prev done cur n).1.length = (chGo t prev done cur n).2 + 1 := by
  induction t with
  | nil => intro prev done cur n h; simp [chGo, h]
  | cons q rest ih =>
    intro prev done cur n h
    cases hadj : adjacentBp prev q with
    | true => simpa [chGo, hadj] using ih q done (cur ++ [q]) n h
    | false =>
      simpa [chGo, hadj] using ih q (done ++ [cur]) [] (n + 1) (by simp [h])

/-- When no line matches the annotation header, the `read_jv` loop leaves the
accumulator unassigned. -/
lemma jvGo_none (lines : List String) (h : ∀ l ∈ lines, jvMatches l = false) :
    jvGo lines none = .ok none := by
  induction lines with
  | nil => rfl
  | cons line rest ih =>
    have hl : jvMatches line = false := h line (by simp)
    simp only [jvGo, hl, Bool.false_eq_true, if_false]
    exact ih (fun l hm => h l (by simp [hm]))

/-- Lines before the last one cannot change where the `read_jv` loop ends up,
as long as every matching one of them has a well-formed payload. -/
lemma jvGo_reach (pre : List String) (line : String) :
    ∀ acc : Option (List String),
    (∀ l ∈ pre, jvMatches l = true → (jvPayload l).isSome = true) →
    ∃ acc', jvGo (pre ++ [line]) acc = jvGo [line] acc' := by
  induction pre with
  | nil => intro acc _; exact ⟨acc, rfl⟩
  | cons p rest ih =>
    intro acc h
    cases hm : jvMatches p with
    | false =>
      simp only [List.cons_append, jvGo, hm, Bool.false_eq_true, if_false]
      exact ih acc (fun l hl => h l (by simp [hl]))
    | true =>
      have hs := h p (by simp) hm
      cases hp : jvPayload p with
      | none => rw [hp] at hs; simp at hs
      | some anno =>
        simp only [List.cons_append, jvGo, hm, if_true, hp]
        exact ih (some anno) (fun l hl => h l (by simp [hl]))

/-- `read_csvGo` output: the accumulator followed by the per-row triples. -/
lemma read_csvGo_ok (rows : List (List String)) : ∀ (acc l : List (Int × Int)),
    read_csvGo rows acc = .ok l → l = acc ++ rows.flatMap rowTriples := by
  induction rows with
  | nil =>
    intro acc l h
    simp only [read_csvGo, Except.ok.injEq] at h
    simp [← h]
  | cons row rest ih =>
    intro acc l h
    cases hr : csvRowPair row with
    | error e => simp [read_csvGo, hr] at h
    | ok p =>
      simp only [read_csvGo, hr] at h
      have hl := ih _ _ h
      simp [hl, rowTriples, hr, base_pairs, List.flatMap_cons]

/-- Every pair recorded by the `find_parens` loop has its opening index below
its closing index, because openings are pushed before the closer that pops
them is reached. -/
lemma goFP_lt (t : List String) : ∀ (i : Nat) (st : List Nat)
    (tr l : List (Nat × Nat)),
    (∀ a ∈ st, a < i) → (∀ p ∈ tr, p.1 < p.2) → goFP t i st tr = .ok l →
    ∀ p ∈ l, p.1 < p.2 := by
  induction t with
  | nil =>
    intro i st tr l hst htr h
    cases st with
    | nil =>
      simp only [goFP, Except.ok.injEq] at h
      exact h ▸ htr
    | cons top rest => simp [goFP] at h
  | cons c rest ih =>
    intro i st tr l hst htr h
    simp only [goFP] at h
    by_cases hc : c = "("
    · rw [if_pos hc] at h
      refine ih (i + 1) (i :: st) tr l ?_ htr h
      intro a ha
      rcases List.mem_cons.mp ha with rfl | ha
      · omega
      · exact Nat.lt_succ_of_lt (hst a ha)
    · rw [if_neg hc] at h
      by_cases hc2 : c = ")"
      · rw [if_pos hc2] at h
        cases st with
        | nil => simp at h
        | cons top ps =>
          refine ih (i + 1) ps (tr ++ [(top, i)]) l ?_ ?_ h
          · intro a ha
            exact Nat.lt_succ_of_lt (hst a (List.mem_cons_of_mem top ha))
          · intro p hp
            rcases List.mem_append.mp hp with hp | hp
            · exact htr p hp
            · simp only [List.mem_singleton] at hp
              subst hp
              exact hst top (List.mem_cons_self top ps)
      · rw [if_neg hc2] at h
        exact ih (i + 1) st tr l (fun a ha => Nat.lt_succ_of_lt (hst a ha)) htr h

/-- A `bpStep` that succeeds preserves "all accumulated pairs are distinct",
given that the row itself relates distinct positions. -/
lemma bpStep_distinct (row : List String) (acc acc' : List (Int × Int))
    (hrow : bpRowDistinct row = true) (hacc : ∀ p ∈ acc, p.1 ≠ p.2)
    (h : bpStep row acc = .ok acc') : ∀ p ∈ acc', p.1 ≠ p.2 := by
  unfold bpStep at h
  split at h
  · exact absurd h (by simp)
  · next t0 h0 =>
    split at h
    · exact absurd h (by simp)
    · next a ha =>
      split at h
      · exact (Except.ok.inj h) ▸ hacc
      · next haz =>
        split at h
        · exact absurd h (by simp)
        · next t2 h2 =>
          split at h
          · exact absurd h (by simp)
          · next b hb =>
            have hab : a ≠ b := by
              simp only [bpRowDistinct, h0, h2, ha, hb, bne_iff_ne] at hrow
              exact hrow
            split at h
            · exact (Except.ok.inj h) ▸ hacc
            · have happ : ∀ p ∈ acc ++ [(a, b)], p.1 ≠ p.2 := by
                intro p hp
                rcases List.mem_append.mp hp with hp | hp
                · exact hacc p hp
                · simp only [List.mem_singleton] at hp
                  subst hp
                  exact hab
              split at h
              · exact (Except.ok.inj h) ▸ happ
              · split at h
                · exact (Except.ok.inj h) ▸ hacc
                · exact (Except.ok.inj h) ▸ happ

/-- The `read_bpseq` loop keeps all pairs distinct when every row relates
distinct positions. -/
lemma bpGo_distinct (rows : List (List String)) : ∀ (acc l : List (Int × Int)),
    (∀ r ∈ rows, bpRowDistinct r = true) → (∀ p ∈ acc, p.1 ≠ p.2) →
    bpGo rows acc = .ok l → ∀ p ∈ l, p.1 ≠ p.2 := by
  induction rows with
  | nil =>
    intro acc l _ hacc h
    simp only [bpGo, Except.ok.injEq] at h
    exact h ▸ hacc
  | cons row rest ih =>
    intro acc l hrows hacc h
    simp only [bpGo] at h
    split at h
    · exact absurd h (by simp)
    · next acc' hstep =>
      exact ih acc' l (fun r hr => hrows r (by simp [hr]))
        (bpStep_distinct row acc acc' (hrows row (by simp)) hacc hstep) h

/-- The `read_csv` loop keeps all pairs distinct when every row relates
distinct positions. -/
lemma csvGo_distinct (rows : List (List String)) : ∀ (acc l : List (Int × Int)),
    (∀ r ∈ rows, csvRowDistinct r = true) → (∀ p ∈ acc, p.1 ≠ p.2) →
    read_csvGo rows acc = .ok l → ∀ p ∈ l, p.1 ≠ p.2 := by
  induction rows with
  | nil =>
    intro acc l _ hacc h
    simp only [read_csvGo, Except.ok.injEq] at h
    exact h ▸ hacc
  | cons row rest ih =>
    intro acc l hrows hacc h
    simp only [read_csvGo] at h
    split at h
    · exact absurd h (by simp)
    · next p hp =>
      refine ih _ l (fun r hr => hrows r (by simp [hr])) ?_ h
      have hpd : p.1 ≠ p.2 := by
        have := hrows row (by simp)
        simp only [csvRowDistinct, hp, bne_iff_ne] at this
        exact this
      intro q hq
      rcases List.mem_append.mp hq with hq | hq
      · exact hacc q hq
      · simp only [base_pairs, List.map_cons, List.map_nil, List.mem_cons,
          List.mem_singleton, List.not_mem_nil, or_false] at hq
        rcases hq with rfl | rfl | rfl <;> exact hpd

/-- The opening-bracket token differs from the closing one. -/
lemma openNeClose : ¬("(" : String) = ")" := by decide

/-- The closing-bracket token differs from the opening one. -/
lemma closeNeOpen : ¬(")" : String) = "(" := by decide

/-- Counting a token at the head. -/
lemma countTok_cons_self (x : String) (l : List String) :
    countTok x (x :: l) = 1 + countTok x l := by simp [countTok]

/-- Counting past a different head token. -/
lemma countTok_cons_ne (x c : String) (l : List String) (h : ¬ c = x) :
    countTok x (c :: l) = countTok x l := by simp [countTok, h]

/-- When the reference scan underflows with index `k`, then `k` names the
first closing bracket seen when the running balance (opens minus closes,
offset by the initial stack height) has reached zero — i.e. the first
unmatched closing bracket. -/
lemma bracketStacksGo_err (t : List String) : ∀ (i : Nat) (st : List Nat)
    (k : Nat), bracketStacksGo t i st = .error k →
    ∃ m, k = i + m ∧ t[m]? = some ")" ∧
      countTok ")" (t.take m) = countTok "(" (t.take m) + st.length ∧
      ∀ j, j < m → t[j]? = some ")" →
        countTok ")" (t.take j) < countTok "(" (t.take j) + st.length := by
  induction t with
  | nil => intro i st k h; simp [bracketStacksGo] at h
  | cons c rest ih =>
    intro i st k h
    simp only [bracketStacksGo] at h
    by_cases hc : c = "("
    · rw [if_pos hc] at h
      subst hc
      obtain ⟨m, hk, hget, hcnt, hlt⟩ := ih (i + 1) (i :: st) k h
      simp only [List.length_cons] at hcnt hlt
      refine ⟨m + 1, by omega, by simp only [List.getElem?_cons_succ]; exact hget,
        ?_, ?_⟩
      · rw [List.take_succ_cons, countTok_cons_ne _ _ _ openNeClose,
          countTok_cons_self]
        omega
      · intro j hj hgj
        cases j with
        | zero =>
          simp only [List.getElem?_cons_zero, Option.some.injEq] at hgj
          exact absurd hgj openNeClose
        | succ j' =>
          simp only [List.getElem?_cons_succ] at hgj
          have := hlt j' (by omega) hgj
          rw [List.take_succ_cons, countTok_cons_ne _ _ _ openNeClose,
            countTok_cons_self]
          omega
    · rw [if_neg hc] at h
      by_cases hc2 : c = ")"
      · rw [if_pos hc2] at h
        subst hc2
        cases st with
        | nil =>
          simp only [Except.error.injEq] at h
          exact ⟨0, by omega, by simp, by simp [countTok], by omega⟩
        | cons top ps =>
          obtain ⟨m, hk, hget, hcnt, hlt⟩ := ih (i + 1) ps k h
          refine ⟨m + 1, by omega, by simp only [List.getElem?_cons_succ]; exact hget,
            ?_, ?_⟩
          · rw [List.take_succ_cons, countTok_cons_self,
              countTok_cons_ne _ _ _ closeNeOpen]
            simp only [List.length_cons]
            omega
          · intro j hj hgj
            cases j with
            | zero =>
              simp only [List.take_zero, countTok, List.length_cons]
              omega
            | succ j' =>
              simp only [List.getElem?_cons_succ] at hgj
              have := hlt j' (by omega) hgj
              rw [List.take_succ_cons, countTok_cons_self,
                countTok_cons_ne _ _ _ closeNeOpen]
              simp only [List.length_cons]
              omega
      · rw [if_neg hc2] at h
        obtain ⟨m, hk, hget, hcnt, hlt⟩ := ih (i + 1) st k h
        refine ⟨m + 1, by omega, by simp only [List.getElem?_cons_succ]; exact hget,
          ?_, ?_⟩
        · rw [List.take_succ_cons, countTok_cons_ne _ _ _ hc2,
            countTok_cons_ne _ _ _ hc]
          omega
        · intro j hj hgj
          cases j with
          | zero =>
            simp only [List.getElem?_cons_zero, Option.some.injEq] at hgj
            exact absurd hgj hc2
          | succ j' =>
            simp only [List.getElem?_cons_succ] at hgj
            have := hlt j' (by omega) hgj
            rw [List.take_succ_cons, countTok_cons_ne _ _ _ hc2,
              countTok_cons_ne _ _ _ hc]
            omega

/-- A `noClosing` error of the `find_parens` loop is exactly an underflow of
the reference scan at the same index (the matched-pairs accumulator plays no
role in the control flow). -/
lemma goFP_noClosing_stacks (t : List String) : ∀ (i : Nat) (st : List Nat)
    (tr : List (Nat × Nat)) (k : Nat),
    goFP t i st tr = .error (.noClosing k) → bracketStacksGo t i st = .error k := by
  induction t with
  | nil =>
    intro i st tr k h
    cases st <;> simp [goFP] at h
  | cons c rest ih =>
    intro i st tr k h
    simp only [goFP] at h
    simp only [bracketStacksGo]
    by_cases hc : c = "("
    · rw [if_pos hc] at h ⊢
      exact ih _ _ _ _ h
    · rw [if_neg hc] at h ⊢
      by_cases hc2 : c = ")"
      · rw [if_pos hc2] at h ⊢
        cases st with
        | nil =>
          simp only [Except.error.injEq, ParensErr.noClosing.injEq] at h
          rw [h]
        | cons top ps => exact ih _ _ _ _ h
      · rw [if_neg hc2] at h ⊢
        exact ih _ _ _ _ h

/-- A `noOpening` error of the `find_parens` loop reports the TOP of the
stack the reference scan is left with: the most recently pushed unmatched
opening index. -/
lemma goFP_noOpening_stacks (t : List String) : ∀ (i : Nat) (st : List Nat)
    (tr : List (Nat × Nat)) (j : Nat),
    goFP t i st tr = .error (.noOpening j) →
    ∃ ps, bracketStacksGo t i st = .ok (j :: ps) := by
  induction t with
  | nil =>
    intro i st tr j h
    cases st with
    | nil => simp [goFP] at h
    | cons top ps =>
      simp only [goFP, Except.error.injEq, ParensErr.noOpening.injEq] at h
      subst h
      exact ⟨ps, rfl⟩
  | cons c rest ih =>
    intro i st tr j h
    simp only [goFP] at h
    simp only [bracketStacksGo]
    by_cases hc : c = "("
    · rw [if_pos hc] at h ⊢
      exact ih _ _ _ _ h
    · rw [if_neg hc] at h ⊢
      by_cases hc2 : c = ")"
      · rw [if_pos hc2] at h ⊢
        cases st with
        | nil => simp at h
        | cons top ps => exact ih _ _ _ _ h
      · rw [if_neg hc2] at h ⊢
        exact ih _ _ _ _ h

/-- Invariant of the reference scan relative to the whole input `s`: if the
stack holds indices of opening brackets below the cursor, strictly
descending, then so does the final stack of a completed scan. -/
lemma bracketStacksGo_inv (s : List String) : ∀ (t : List String), ∀ (i : Nat)
    (st : List Nat), s.drop i = t →
    (∀ a ∈ st, a < i ∧ s[a]? = some "(") →
    st.Pairwise (fun a b => b < a) →
    ∀ out, bracketStacksGo t i st = .ok out →
      (∀ a ∈ out, s[a]? = some "(") ∧ out.Pairwise (fun a b => b < a) := by
  intro t
  induction t with
  | nil =>
    intro i st _ hst hpw out h
    simp only [bracketStacksGo, Except.ok.injEq] at h
    subst h
    exact ⟨fun a ha => (hst a ha).2, hpw⟩
  | cons c rest ih =>
    intro i st hdrop hst hpw out h
    have hgetI : s[i]? = some c := by
      have h0 : (s.drop i)[0]? = s[i + 0]? := List.getElem?_drop s i 0
      rw [hdrop] at h0
      simpa using h0.symm
    have hdrop' : s.drop (i + 1) = rest := by
      have h1 : List.drop 1 (List.drop i s) = List.drop (i + 1) s :=
        List.drop_drop 1 i s
      rw [hdrop] at h1
      rw [← h1]
      simp
    simp only [bracketStacksGo] at h
    by_cases hc : c = "("
    · rw [if_pos hc] at h
      refine ih (i + 1) (i :: st) hdrop' ?_ ?_ out h
      · intro a ha
        rcases List.mem_cons.mp ha with rfl | ha
        · exact ⟨Nat.lt_succ_self a, by rw [hgetI, hc]⟩
        · exact ⟨Nat.lt_succ_of_lt (hst a ha).1, (hst a ha).2⟩
      · exact List.pairwise_cons.mpr ⟨fun b hb => (hst b hb).1, hpw⟩
    · rw [if_neg hc] at h
      by_cases hc2 : c = ")"
      · rw [if_pos hc2] at h
        cases st with
        | nil => simp at h
        | cons top ps =>
          exact ih (i + 1) ps hdrop'
            (fun a ha =>
              ⟨Nat.lt_succ_of_lt (hst a (List.mem_cons_of_mem top ha)).1,
                (hst a (List.mem_cons_of_mem top ha)).2⟩)
            (List.pairwise_cons.mp hpw).2 out h
      · rw [if_neg hc2] at h
        exact ih (i + 1) st hdrop'
          (fun a ha => ⟨Nat.lt_succ_of_lt (hst a ha).1, (hst a ha).2⟩) hpw out h

/-! ## Claim C1 -/

/-- Claim C1 (code_bug evidence): on the spec's own contiguity example
`[(1,20),(2,19),(3,18),(10,11)]`, `create_helices` opens helix 1 but never
appends `(10,11)` to it — the pair is dropped, so the helices do not
partition the Ordered Pair Sequence. -/
theorem create_helices_drops_pairs :
    create_helices [(1, 20), (2, 19), (3, 18), (10, 11)] =
      ([[(1, 20), (2, 19), (3, 18)], []], 1) ∧
    ∀ h ∈ [[(1, 20), (2, 19), (3, 18)], ([] : List (Int × Int))],
      ((10 : Int), (11 : Int)) ∉ h :=
  ⟨rfl, by decide⟩

/-! ## Claim C2 -/

/-- Claim C2 (code_bug evidence): `read_bpseq` keeps an exact duplicate row
and a coordinate-swapped duplicate row, because its membership test compares
the row's string tokens against the stored int tuples (always `False` in
Python).  The resulting list has duplicate unordered pairs. -/
theorem read_bpseq_keeps_duplicates :
    read_bpseq [["3", "x", "8"], ["3", "x", "8"]] = .ok [(3, 8), (3, 8)] ∧
    read_bpseq [["3", "x", "8"], ["8", "x", "3"]] = .ok [(3, 8), (8, 3)] ∧
    ¬ ([((3 : Int), (8 : Int)), (3, 8)] : List (Int × Int)).Nodup :=
  ⟨rfl, rfl, by decide⟩

/-! ## Claim C4 -/

/-- Claim C4 (counterexample): on input with an empty normalized pair
sequence, `create_helices` returns the value `({}, 0)` — it does not fail;
no `EmptyInputError` exists anywhere in the code. -/
theorem create_helices_empty_cex :
    create_helices ([] : List (Int × Int)) = ([], 0) := rfl

/-- Claim C4 (amended): whenever the Ordered Pair Sequence is empty, the
loop body of `create_helices` never runs and the function returns the empty
mapping together with helix count 0, raising nothing. -/
theorem create_helices_empty_amended (l : List (Int × Int))
    (h : ordered_basepairs l = []) : create_helices l = ([], 0) := by
  unfold create_helices
  rw [h]

/-- Witness for the amended claim C4 at the concrete empty input. -/
theorem create_helices_empty_witness :
    ordered_basepairs [] = [] ∧ create_helices ([] : List (Int × Int)) = ([], 0) :=
  ⟨rfl, create_helices_empty_amended [] rfl⟩

/-! ## Claim C7 -/

/-- Claim C7 (counterexample): for the single-pair input `[(1,5)]` the dict
has one key (helix 0) but the returned `helix_num` is 0, not 1. -/
theorem create_helices_count_cex :
    create_helices [(1, 5)] = ([[(1, 5)]], 0) ∧
    ([[((1 : Int), (5 : Int))]] : List (List (Int × Int))).length ≠ 0 :=
  ⟨rfl, by decide⟩

/-- Claim C7 (amended): for every non-empty input the second value returned
by `create_helices` is the largest helix index; the mapping has that value
plus one keys. -/
theorem create_helices_count_amended (l : List (Int × Int))
    (h : ordered_basepairs l ≠ []) :
    (create_helices l).1.length = (create_helices l).2 + 1 := by
  unfold create_helices
  cases hob : ordered_basepairs l with
  | nil => exact absurd hob h
  | cons p rest => exact chGo_len rest p [] [p] 0 rfl

/-- Witness for the amended claim C7 at the concrete input `[(1,5)]`. -/
theorem create_helices_count_witness :
    (create_helices [(1, 5)]).1.length = (create_helices [(1, 5)]).2 + 1 :=
  create_helices_count_amended [(1, 5)] (by decide)

/-! ## Claim C9 -/

/-- Claim C9 (counterexample): on `"((.))"` the pair list is in dict
insertion order — the inner pair `(1,3)` is recorded first — not in the
order `[(0,4),(1,3)]` the spec states. -/
theorem find_parens_example_cex :
    find_parens (pyStrIter "((.))") = .ok [(1, 3), (0, 4)] ∧
    ([(1, 3), (0, 4)] : List (Nat × Nat)) ≠ [(0, 4), (1, 3)] :=
  ⟨rfl, by decide⟩

/-- Claim C9 (amended): `find_parens` on the payload `"((.))"` returns
`[(1,3),(0,4)]`: the same pairs, ordered by closing bracket (each pair is
recorded when its closer is popped). -/
theorem find_parens_example_amended :
    find_parens (pyStrIter "((.))") = .ok [(1, 3), (0, 4)] := rfl

/-! ## Claim C10 -/

/-- Claim C10: when no line of the file starts with the expected annotation
header, `read_jv` fails with the `NameError` from the never-assigned
`anno_resi`, not with a parse error or a value. -/
theorem read_jv_no_match (lines : List String)
    (h : ∀ l ∈ lines, jvMatches l = false) :
    read_jv lines = .error .nameError := by
  unfold read_jv
  rw [jvGo_none lines h]

/-- Witness for claim C10 at a concrete header-free file. -/
theorem read_jv_no_match_witness : read_jv ["hello"] = .error .nameError :=
  read_jv_no_match ["hello"] (by decide)

/-! ## Claim C5 -/

/-- Claim C5 (counterexample): with two matching records the returned pairs
come from the second (last) one — the payload `".|."` giving no pairs — not
from the first, whose payload `"(|)"` gives `[(0,1)]`. -/
theorem read_jv_last_match_cex :
    read_jv ["NO_GRAPH\tSecondary structure\t(|)",
             "NO_GRAPH\tSecondary structure\t.|."] = .ok [] ∧
    read_jv ["NO_GRAPH\tSecondary structure\t(|)"] = .ok [(0, 1)] ∧
    (([] : List (Nat × Nat)) ≠ [(0, 1)]) :=
  ⟨rfl, rfl, by decide⟩

/-- Claim C5 (amended): the loop has no `break`, so each matching record
overwrites the payload and the returned pairs are derived from the LAST
matching record (here: a matching record placed last, after any prefix whose
matching lines are well-formed). -/
theorem read_jv_last_match (pre : List String) (line : String)
    (anno : List String)
    (hpre : ∀ l ∈ pre, jvMatches l = true → (jvPayload l).isSome = true)
    (hm : jvMatches line = true) (hp : jvPayload line = some anno) :
    read_jv (pre ++ [line]) = (find_parens anno).mapError JvErr.bracketErr := by
  obtain ⟨acc', hacc⟩ := jvGo_reach pre line none hpre
  unfold read_jv
  rw [hacc]
  simp [jvGo, hm, hp]

/-- Witness for the amended claim C5 at a concrete two-record file. -/
theorem read_jv_last_match_witness :
    read_jv ["NO_GRAPH\tSecondary structure\t(|)",
             "NO_GRAPH\tSecondary structure\t.|."] =
      (find_parens [".", "."]).mapError JvErr.bracketErr :=
  read_jv_last_match ["NO_GRAPH\tSecondary structure\t(|)"]
    "NO_GRAPH\tSecondary structure\t.|." [".", "."] (by decide) (by rfl) (by rfl)

/-! ## Claim C8 -/

/-- Claim C8: `read_csv` never looks at the header row, and a successful
read returns, for each data row in order, exactly three identical copies of
the pair built from the integers after the colons of fields 0 and 2 (one
copy per entry of the fixed `base_pairs` list). -/
theorem read_csv_header_triplicate (hdr hdr' : List String)
    (rows : List (List String)) (l : List (Int × Int))
    (h : read_csv (hdr :: rows) = .ok l) :
    read_csv (hdr' :: rows) = .ok l ∧ l = rows.flatMap rowTriples := by
  have h' : read_csvGo rows [] = .ok l := h
  exact ⟨h', by simpa using read_csvGo_ok rows [] l h'⟩

/-- Witness for claim C8 at a concrete one-row table. -/
theorem read_csv_header_triplicate_witness :
    read_csv [["q"], ["A:3", "y", "B:8"]] = .ok [(3, 8), (3, 8), (3, 8)] ∧
    [((3 : Int), (8 : Int)), (3, 8), (3, 8)] = [["A:3", "y", "B:8"]].flatMap rowTriples :=
  read_csv_header_triplicate ["hd"] ["q"] [["A:3", "y", "B:8"]]
    [(3, 8), (3, 8), (3, 8)] (by rfl)

/-! ## Claim C6 -/

/-- Claim C6 (counterexample): `read_bpseq` happily returns the pair `(5,5)`
for a row pairing position 5 with itself — the parsers do not enforce the
`p ≠ q` invariant. -/
theorem read_bpseq_equal_pair_cex :
    read_bpseq [["5", "x", "5"]] = .ok [(5, 5)] ∧
    ¬ (∀ p ∈ [((5 : Int), (5 : Int))], p.1 ≠ p.2) :=
  ⟨rfl, by decide⟩

/-- Claim C6 (amended): `find_parens` pairs always satisfy `p < q` (so
`p ≠ q`); for `read_bpseq` and `read_csv` the positions of a pair are
distinct only under the assumption that no input row pairs a position with
itself — the parsers take whatever the rows say. -/
theorem parsers_pairs_distinct :
    (∀ (s : List String) (l : List (Nat × Nat)), find_parens s = .ok l →
      ∀ p ∈ l, p.1 < p.2) ∧
    (∀ (rows : List (List String)) (l : List (Int × Int)),
      (∀ r ∈ rows, bpRowDistinct r = true) → read_bpseq rows = .ok l →
      ∀ p ∈ l, p.1 ≠ p.2) ∧
    (∀ (hdr : List String) (rows : List (List String)) (l : List (Int × Int)),
      (∀ r ∈ rows, csvRowDistinct r = true) → read_csv (hdr :: rows) = .ok l →
      ∀ p ∈ l, p.1 ≠ p.2) := by
  refine ⟨?_, ?_, ?_⟩
  · intro s l h
    exact goFP_lt s 0 [] [] l (by simp) (by simp) h
  · intro rows l hrows h
    exact bpGo_distinct rows [] l hrows (by simp) h
  · intro hdr rows l hrows h
    exact csvGo_distinct rows [] l hrows (by simp) h

/-- Witness for the amended claim C6 at concrete inputs for all three
parsers. -/
theorem parsers_pairs_distinct_witness :
    (∀ p ∈ [((0 : Nat), (1 : Nat))], p.1 < p.2) ∧
    (∀ p ∈ [((3 : Int), (8 : Int))], p.1 ≠ p.2) ∧
    (∀ p ∈ [((3 : Int), (8 : Int)), (3, 8), (3, 8)], p.1 ≠ p.2) :=
  ⟨parsers_pairs_distinct.1 (pyStrIter "()") [(0, 1)] (by rfl),
   parsers_pairs_distinct.2.1 [["3", "x", "8"]] [(3, 8)] (by decide) (by rfl),
   parsers_pairs_distinct.2.2 ["hd"] [["A:3", "y", "B:8"]]
     [(3, 8), (3, 8), (3, 8)] (by decide) (by rfl)⟩

/-! ## Claim C3 -/

/-- Claim C3 (counterexample): on the payload `"(("` both openings are
unmatched; the first unmatched still-open opening bracket is at index 0, but
`find_parens` raises the mismatched-bracket error with index 1 (the most
recently pushed one, via `pstack.pop()`). -/
theorem find_parens_error_indices_cex :
    find_parens (pyStrIter "((") = .error (.noOpening 1) ∧
    bracketStacksGo (pyStrIter "((") 0 [] = .ok [1, 0] ∧
    (1 : Nat) ≠ 0 :=
  ⟨rfl, rfl, by decide⟩

/-- Claim C3 (amended): a `noClosing` error carries the exact index of the
first unmatched closing bracket — the first `")"` at which closings balance
openings; a `noOpening` error carries the index of the LAST (most recently
opened) still-open opening bracket — the head of the post-scan stack, larger
than every other leftover opening index; and the payload `"(()"` raises the
mismatched-bracket error referencing unmatched opening index 0 (its only
one). -/
theorem find_parens_error_indices (s : List String) :
    (∀ i, find_parens s = .error (.noClosing i) →
      s[i]? = some ")" ∧
      countTok ")" (s.take i) = countTok "(" (s.take i) ∧
      ∀ j, j < i → s[j]? = some ")" →
        countTok ")" (s.take j) < countTok "(" (s.take j)) ∧
    (∀ j, find_parens s = .error (.noOpening j) →
      s[j]? = some "(" ∧
      ∃ ps, bracketStacksGo s 0 [] = .ok (j :: ps) ∧ ∀ k ∈ ps, k < j) ∧
    find_parens (pyStrIter "(()") = .error (.noOpening 0) := by
  refine ⟨?_, ?_, rfl⟩
  · intro i h
    have hbs := goFP_noClosing_stacks s 0 [] [] i h
    obtain ⟨m, hk, hget, hcnt, hlt⟩ := bracketStacksGo_err s 0 [] i hbs
    have hmi : m = i := by omega
    subst hmi
    refine ⟨hget, by simpa using hcnt, ?_⟩
    intro j hj hgj
    simpa using hlt j hj hgj
  · intro j h
    obtain ⟨ps, hbs⟩ := goFP_noOpening_stacks s 0 [] [] j h
    have hinv := bracketStacksGo_inv s s 0 [] (by simp) (by simp) (by simp)
      (j :: ps) hbs
    refine ⟨hinv.1 j (List.mem_cons_self j ps), ps, hbs, ?_⟩
    intro k hk
    exact (List.pairwise_cons.mp hinv.2).1 k hk

/-- Witness for the amended claim C3 at the concrete payload `"(("`: the
reported index 1 is an opening bracket and tops the leftover stack. -/
theorem find_parens_error_indices_witness :
    (pyStrIter "((")[1]? = some "(" ∧
    (∃ ps, bracketStacksGo (pyStrIter "((") 0 [] = .ok (1 :: ps) ∧
      ∀ k ∈ ps, k < 1) :=
  (find_parens_error_indices (pyStrIter "((")).2.1 1 (by rfl)

end Topology1D
